import Mathlib

/-!
Verification of the numerical core of the FourierSeriesAnimation program:
the 16-point Gauss-Legendre quadrature with adaptive refinement
(src/util/math.rs), the Fourier analysis/synthesis pair built on it, the
SVG-command curve builder (src/main.rs), and the coefficient ordering used
by the animation window (src/ui/window/fourier_animation.rs).

The f64 arithmetic of the source is embedded as real arithmetic over ℝ,
and Complex<f64> as ℂ.  Fallible operations (validation errors, the parity
assertion of the analyzer) are embedded as Except / Option values.
-/

namespace FourierAnim

/-! ### Quadrature engine (src/util/math.rs) -/

/-- The canonical 16 Gauss-Legendre abscissas on [-1, 1]
(constant X_POSITIONS_16 of src/util/math.rs). -/
def x_positions_16 : List ℝ :=
  [ -0.989400934991649932596,
    -0.944575023073232576078,
    -0.865631202387831743880,
    -0.755404408355003033895,
    -0.617876244402643748447,
    -0.458016777657227386342,
    -0.281603550779258913230,
    -0.0950125098376374401853,
    0.0950125098376374401853,
    0.281603550779258913230,
    0.458016777657227386342,
    0.617876244402643748447,
    0.755404408355003033895,
    0.865631202387831743880,
    0.944575023073232576078,
    0.989400934991649932596 ]

/-- The canonical 16 Gauss-Legendre weights
(constant X_WEIGHTS_16 of src/util/math.rs). -/
def x_weights_16 : List ℝ :=
  [ 0.0271524594117540948518,
    0.0622535239386478928628,
    0.0951585116824927848099,
    0.124628971255533872052,
    0.149595988816576732082,
    0.169156519395002538189,
    0.182603415044923588867,
    0.189450610455068496285,
    0.189450610455068496285,
    0.182603415044923588867,
    0.169156519395002538189,
    0.149595988816576732082,
    0.124628971255533872052,
    0.0951585116824927848099,
    0.0622535239386478928628,
    0.0271524594117540948518 ]

noncomputable def xpos (i : ℕ) : ℝ := x_positions_16.getD i 0

noncomputable def xw (i : ℕ) : ℝ := x_weights_16.getD i 0

/-- Tolerance constant TOL of src/util/math.rs. -/
noncomputable def TOL : ℝ := 1e-5

/-- Fixed 16-point Gauss-Legendre rule on [a, b]
(function `integrate` of src/util/math.rs, instantiated at In = f64,
Out = Complex of f64 as used by the application). -/
noncomputable def integrate (a b : ℝ) (f : ℝ → ℂ) : ℂ :=
  let half_length := (b - a) / 2
  let middle := (a + b) / 2
  (∑ i ∈ Finset.range 16, f (middle + half_length * xpos i) * (xw i : ℂ)) *
    (half_length : ℂ)

/-- Recursive worker `inner` of `integrate_v2` in src/util/math.rs:
bisect, compare the two half-interval fixed-rule estimates against the
parent estimate, accept the parent estimate when the error is small or the
depth budget is zero, otherwise recurse on both halves. -/
noncomputable def integrate_v2_inner (f : ℝ → ℂ) :
    ℕ → ℝ → ℝ → ℂ → ℂ
  | avail_depth, a, b, last_res =>
    let middle := (a + b) / 2
    let res_l := integrate a middle f
    let res_r := integrate middle b f
    let delta :=
      Real.sqrt ((res_l + res_r - last_res).re ^ 2 +
        (res_l + res_r - last_res).im ^ 2)
    if h : delta ≤ 15 * TOL ∨ avail_depth = 0 then last_res
    else
      integrate_v2_inner f (avail_depth - 1) a middle res_l +
      integrate_v2_inner f (avail_depth - 1) middle b res_r
  termination_by avail_depth _ _ _ => avail_depth
  decreasing_by
  all_goals
    exact Nat.sub_lt (Nat.pos_of_ne_zero (fun hz => h (Or.inr hz))) Nat.one_pos

/-- Adaptive quadrature `integrate_v2` of src/util/math.rs: the fixed-rule
estimate of the whole interval seeds the recursion with depth budget 16. -/
noncomputable def integrate_v2 (a b : ℝ) (f : ℝ → ℂ) : ℂ :=
  let last_res := integrate a b f
  integrate_v2_inner f 16 a b last_res

/-- Modelled from the words of the specification (section 4.2): the
adaptive refinement recursively bisects; at each level the fixed rule is
evaluated on both halves, the error estimate is the magnitude of
(left + right) minus the parent estimate, acceptance (error at most
15 times 1e-5, or exhausted depth) returns the parent single-interval
estimate, refinement sums the two recursive half-results with one less
depth budget. -/
noncomputable def refine_spec (f : ℝ → ℂ) :
    ℕ → ℝ → ℝ → ℂ → ℂ
  | 0, _, _, parent => parent
  | d + 1, a, b, parent =>
    let m := (a + b) / 2
    let left := integrate a m f
    let right := integrate m b f
    let err := Complex.abs (left + right - parent)
    if err ≤ 15 * 1e-5 then parent
    else refine_spec f d a m left + refine_spec f d m b right

/-- Modelled from the words of the specification: adaptive quadrature is
the refinement procedure seeded with the whole-interval fixed-rule
estimate and an initial depth budget of 16. -/
noncomputable def adaptive_quadrature_spec (a b : ℝ) (f : ℝ → ℂ) : ℂ :=
  refine_spec f 16 a b (integrate a b f)

/-! ### Fourier analyzer and synthesizer (src/util/math.rs) -/

/-- Fourier analyzer `convert_to_fourier_series` of src/util/math.rs.
The Rust function asserts that n is odd (`assert!(n % 2 != 0)`); the
assertion firing is embedded as `none`.  On success the coefficient list
is produced by the loop `for i in -half_range..=half_range`, pushing the
adaptive-quadrature estimate of the integral over [0, 1] of
f(t) * exp(Complex::new(0, -t * i * 2 * pi)); the loop over the integer
range is rendered as a map over `List.range n` with i = j - half_range. -/
noncomputable def convert_to_fourier_series (f : ℝ → ℂ) (n : ℕ) :
    Option (List ℂ) :=
  if n % 2 = 0 then none
  else
    let half_range : ℤ := ((n - 1) / 2 : ℕ)
    some ((List.range n).map (fun (j : ℕ) =>
      integrate_v2 0 1 (fun t =>
        f t * Complex.exp
          ⟨0, -t * ((((j : ℤ) - half_range : ℤ) : ℝ)) * 2 * Real.pi⟩)))

/-- Fourier synthesizer: the closure returned by
`FourierSeriesDesc::as_fn` in src/util/math.rs.  Each stored coefficient
at storage index i is multiplied by
exp(Complex::new(0, t * (i - half_range) * 2 * pi)) and everything is
summed. -/
noncomputable def fourier_series_as_fn (coefficients : List ℂ) (t : ℝ) : ℂ :=
  let n := coefficients.length
  let half_range : ℤ := ((n - 1) / 2 : ℕ)
  ((coefficients.enum).map (fun (p : ℕ × ℂ) =>
    p.2 * Complex.exp
      ⟨0, t * ((((p.1 : ℤ) - half_range : ℤ) : ℝ)) * 2 * Real.pi⟩)).sum

/-- The caller-side coercion in MyApp::update (src/main.rs):
`if *fourier_series_n % 2 == 0 { *fourier_series_n += 1; }`. -/
def coerce_odd (n : ℕ) : ℕ := if n % 2 = 0 then n + 1 else n

/-! ### Curve builder (src/main.rs) -/

/-- Typed drawing command `CmdData` of src/main.rs. -/
inductive CmdData
  | Move (p : ℂ)
  | CubicCurve (p1 p2 p3 : ℂ)

/-- Cubic Bezier evaluation `cubic_bezier` of src/main.rs. -/
noncomputable def cubic_bezier (p0 p1 p2 p3 : ℂ) (t : ℝ) : ℂ :=
  let inv_t := 1 - t
  ((inv_t ^ 3 : ℝ) : ℂ) * p0 +
    ((3 * inv_t ^ 2 * t : ℝ) : ℂ) * p1 +
    ((3 * inv_t * t ^ 2 : ℝ) : ℂ) * p2 +
    ((t ^ 3 : ℝ) : ℂ) * p3

/-- Segment counting loop of parse_svg_into_proc (src/main.rs):
every command that is not a Move counts as one segment. -/
def segments_count (cmds : List CmdData) : ℕ :=
  cmds.countP (fun c => match c with
    | .Move _ => false
    | .CubicCurve _ _ _ => true)

/-- The command walk inside the closure built by parse_svg_into_proc
(src/main.rs): Move overwrites the cursor without consuming a segment
index; a cubic curve first increments the consumed-segment counter and,
when the counter exceeds idx, returns the Bezier value at the local
progress with the cursor as p0; otherwise the cursor advances to p3.
Falling off the end returns the cursor. -/
noncomputable def path_fn_walk (idx : ℕ) (prog : ℝ) :
    List CmdData → ℂ → ℕ → ℂ
  | [], cur_pos, _ => cur_pos
  | .Move p0 :: rest, _, cur_idx => path_fn_walk idx prog rest p0 cur_idx
  | .CubicCurve p1 p2 p3 :: rest, cur_pos, cur_idx =>
    if cur_idx + 1 > idx then cubic_bezier cur_pos p1 p2 p3 prog
    else path_fn_walk idx prog rest p3 (cur_idx + 1)

/-- The closure built by parse_svg_into_proc (src/main.rs):
idx_prog = t * segments_count, idx = idx_prog as usize (truncation,
saturating at 0 for negative values, embedded as Int.toNat of the floor),
prog = idx_prog - idx as f64, then the command walk from the origin. -/
noncomputable def path_fn (cmds : List CmdData) (t : ℝ) : ℂ :=
  let seg_n := segments_count cmds
  let idx_prog := t * (seg_n : ℝ)
  let idx : ℕ := (⌊idx_prog⌋).toNat
  let prog := idx_prog - (idx : ℝ)
  path_fn_walk idx prog cmds 0 0

/-- Modelled from the words of the specification (section 4.1 and the
PathFunction invariant): the list of drawable cubic segments, each paired
with its start point (the cursor at the moment the command is reached). -/
noncomputable def path_segments : List CmdData → ℂ → List (ℂ × ℂ × ℂ × ℂ)
  | [], _ => []
  | .Move p :: rest, _ => path_segments rest p
  | .CubicCurve p1 p2 p3 :: rest, c =>
    (c, p1, p2, p3) :: path_segments rest p3

/-- The cursor position after all commands have been walked
(the value returned by the closure when no segment is selected). -/
def final_cursor : List CmdData → ℂ → ℂ
  | [], c => c
  | .Move p :: rest, _ => final_cursor rest p
  | .CubicCurve _ _ p3 :: rest, _ => final_cursor rest p3

/-- The position established by the most recent Move at or before the
first cubic curve (the cursor when the first curve is reached; the final
cursor when there is no curve). -/
def first_pos : List CmdData → ℂ → ℂ
  | [], c => c
  | .Move p :: rest, _ => first_pos rest p
  | .CubicCurve _ _ _ :: _, c => c

/-- The position set by the last Move command, ignoring curve commands
entirely (origin when there is no Move). -/
def last_move_pos : List CmdData → ℂ → ℂ
  | [], c => c
  | .Move p :: rest, _ => last_move_pos rest p
  | .CubicCurve _ _ _ :: rest, c => last_move_pos rest c

/-- Modelled from the words of the specification: for input t compute
idx_prog = t * segment_count, idx = floor(idx_prog),
local_t = idx_prog - idx; the (idx+1)-th cubic segment (with the cursor
as p0) is evaluated at local_t; at or beyond the last segment the final
cursor position is returned. -/
noncomputable def path_fn_spec (cmds : List CmdData) (t : ℝ) : ℂ :=
  let seg_n := segments_count cmds
  let idx_prog := t * (seg_n : ℝ)
  let idx : ℤ := ⌊idx_prog⌋
  let local_t : ℝ := idx_prog - (idx : ℝ)
  match (path_segments cmds 0).get? idx.toNat with
  | some q => cubic_bezier q.1 q.2.1 q.2.2.1 q.2.2.2 local_t
  | none => final_cursor cmds 0

/-! ### Command validation (src/main.rs) -/

/-- Coordinate mode of an SVG path command (svg crate). -/
inductive Position
  | Absolute
  | Relative

/-- The command alphabet of the svg crate
(svg::node::element::path::Command), the input type of the TryFrom
validation in src/main.rs. -/
inductive Command
  | Move (pos : Position) (params : List ℝ)
  | Line (pos : Position) (params : List ℝ)
  | HorizontalLine (pos : Position) (params : List ℝ)
  | VerticalLine (pos : Position) (params : List ℝ)
  | QuadraticCurve (pos : Position) (params : List ℝ)
  | SmoothQuadraticCurve (pos : Position) (params : List ℝ)
  | CubicCurve (pos : Position) (params : List ℝ)
  | SmoothCubicCurve (pos : Position) (params : List ℝ)
  | EllipticalArc (pos : Position) (params : List ℝ)
  | Close

/-- Validation error `TryFromCommandError` of src/main.rs. -/
inductive TryFromCommandError
  | UnrecognizedCommand (description : String)
  | InvalidParameter

/-- The Debug description of a command, carried by UnrecognizedCommand
(the Rust code uses `format!` with the Debug formatter; the numeric
parameter values are elided here, keeping the command kind). -/
def describe : Command → String
  | .Move _ _ => "Move"
  | .Line _ _ => "Line"
  | .HorizontalLine _ _ => "HorizontalLine"
  | .VerticalLine _ _ => "VerticalLine"
  | .QuadraticCurve _ _ => "QuadraticCurve"
  | .SmoothQuadraticCurve _ _ => "SmoothQuadraticCurve"
  | .CubicCurve _ _ => "CubicCurve"
  | .SmoothCubicCurve _ _ => "SmoothCubicCurve"
  | .EllipticalArc _ _ => "EllipticalArc"
  | .Close => "Close"

/-- The chunks_exact(6) loop of the CubicCurve arm in src/main.rs:
each group of six numbers becomes one cubic command. -/
def cubic_chunks : List ℝ → List CmdData
  | a :: b :: c :: d :: e :: f :: rest =>
    CmdData.CubicCurve ⟨a, b⟩ ⟨c, d⟩ ⟨e, f⟩ :: cubic_chunks rest
  | _ => []

/-- Command validation: TryFrom for VecCmdData in src/main.rs.  An
absolute Move must have exactly 2 parameters; an absolute CubicCurve must
have a parameter count divisible by 6; Close contributes no geometry;
every other command is rejected as unrecognized with its description. -/
def try_from_command : Command → Except TryFromCommandError (List CmdData)
  | .Move .Absolute param =>
    if param.length ≠ 2 then .error .InvalidParameter
    else .ok [CmdData.Move ⟨param.getD 0 0, param.getD 1 0⟩]
  | .CubicCurve .Absolute param =>
    if param.length % 6 ≠ 0 then .error .InvalidParameter
    else .ok (cubic_chunks param)
  | .Close => .ok []
  | other => .error (.UnrecognizedCommand (describe other))

/-- True exactly on the three command kinds handled by the validation
match in src/main.rs: move-to, cubic-curve-to and close. -/
def is_supported_kind : Command → Bool
  | .Move _ _ => true
  | .CubicCurve _ _ => true
  | .Close => true
  | _ => false

/-- A parameter count that is a positive multiple of 6 (the wording of
the input contract in section 6 of the specification). -/
def pos_multiple_of_6 (m : ℕ) : Prop := 0 < m ∧ m % 6 = 0

instance : DecidablePred pos_multiple_of_6 := fun _ =>
  inferInstanceAs (Decidable (_ ∧ _))

/-- The command-translation loop of parse_svg_into_proc (src/main.rs):
each command is validated and its data appended; the first validation
error aborts the whole translation (the Rust code returns None). -/
def collect_cmds : List Command → Option (List CmdData)
  | [] => some []
  | c :: rest =>
    match try_from_command c with
    | .error _ => none
    | .ok data => (collect_cmds rest).map (fun tail => data ++ tail)

/-- parse_svg_into_proc (src/main.rs) restricted to its command-sequence
translation: on success the built closure is returned, on any validation
error no function is produced. -/
noncomputable def parse_svg_into_proc (cmds : List Command) :
    Option (ℝ → ℂ) :=
  match collect_cmds cmds with
  | none => none
  | some cmd_vec => some (path_fn cmd_vec)

/-! ### Coefficient ordering for the animation window
(src/ui/window/fourier_animation.rs) -/

/-- The comparator passed to sort_by in FourierAnimationWindow::ui
(src/ui/window/fourier_animation.rs), acting on the frequency indices of
the coefficient pairs: smaller absolute index first; at equal absolute
index the comparator returns Less when the first index is larger, and
Equal otherwise. -/
def coefficient_cmp (ida idb : ℤ) : Ordering :=
  if |ida| < |idb| then .lt
  else if |ida| > |idb| then .gt
  else if ida > idb then .lt
  else .eq

end FourierAnim

namespace FourierAnim

lemma sqrt_sq_add_sq_eq_abs (z : ℂ) :
    Real.sqrt (z.re ^ 2 + z.im ^ 2) = Complex.abs z := by
  rw [Complex.abs_apply, Complex.normSq_apply]
  ring_nf

lemma integrate_v2_inner_eq_refine_spec (f : ℝ → ℂ) :
    ∀ (d : ℕ) (a b : ℝ) (p : ℂ),
      integrate_v2_inner f d a b p = refine_spec f d a b p := by
  intro d
  induction d with
  | zero =>
    intro a b p
    rw [integrate_v2_inner]
    simp [refine_spec]
  | succ d ih =>
    intro a b p
    rw [integrate_v2_inner, refine_spec]
    simp only [Nat.succ_ne_zero, or_false, Nat.add_sub_cancel]
    rw [sqrt_sq_add_sq_eq_abs]
    have htol : (15 : ℝ) * TOL = 15 * 1e-5 := by rw [TOL]
    rw [htol]
    by_cases h : Complex.abs (integrate a ((a + b) / 2) f +
        integrate ((a + b) / 2) b f - p) ≤ 15 * 1e-5
    · rw [dif_pos h, if_pos h]
    · rw [dif_neg h, if_neg h, ih, ih]

/-- Claim C1: the adaptive quadrature `integrate_v2` follows exactly the
stated composition rule: it first computes the fixed-rule estimate of the
whole interval, then recursively bisects with an initial depth budget of
16; at each level it computes fixed-rule estimates of the left and right
halves, forms the error estimate as the square root of the sum of squares
of real and imaginary parts of (left + right) minus the parent estimate,
and if that error is at most 15 * 1e-5 or the depth budget is 0 it returns
the parent single-interval estimate, otherwise it returns the sum of the
two recursive calls on the halves, each with depth budget decreased by
one. -/
theorem c1_integrate_v2_composition (a b : ℝ) (f : ℝ → ℂ) :
    integrate_v2 a b f = adaptive_quadrature_spec a b f := by
  unfold integrate_v2 adaptive_quadrature_spec
  exact integrate_v2_inner_eq_refine_spec f 16 a b (integrate a b f)

/-- Claim C6 (code versus claim): the sort comparator of
FourierAnimationWindow::ui orders the pair (k = 1, k = -1) as Less, yet
orders the reversed pair (k = -1, k = 1) as Equal rather than Greater, so
it is not a total order: the consistency condition
swap (cmp a b) = cmp b a fails.  Rust documents the result order of
sort_by as unspecified for such a comparator, so the deterministic
positive-before-negative order the claim states is not guaranteed by the
code. -/
theorem c6_comparator_not_total :
    coefficient_cmp 1 (-1) = Ordering.lt ∧
    coefficient_cmp (-1) 1 = Ordering.eq ∧
    Ordering.swap (coefficient_cmp 1 (-1)) ≠ coefficient_cmp (-1) 1 := by
  decide

/-- Claim C8: the Fourier analyzer requires n odd; even n is a fatal
precondition failure (embedded as `none`), odd n always succeeds, and the
caller-side coercion of MyApp::update (increment when even) always
produces an odd value on which the analyzer succeeds. -/
theorem c8_analyzer_parity (f : ℝ → ℂ) (n : ℕ) :
    (n % 2 = 0 → convert_to_fourier_series f n = none) ∧
    (n % 2 ≠ 0 → (convert_to_fourier_series f n).isSome = true) ∧
    coerce_odd n % 2 ≠ 0 ∧
    (convert_to_fourier_series f (coerce_odd n)).isSome = true := by
  have hco : coerce_odd n % 2 ≠ 0 := by
    unfold coerce_odd
    split <;> omega
  refine ⟨?_, ?_, hco, ?_⟩
  · intro h
    simp [convert_to_fourier_series, h]
  · intro h
    simp [convert_to_fourier_series, h]
  · simp [convert_to_fourier_series, hco]

theorem c8_witness :
    convert_to_fourier_series (fun _ => (0 : ℂ)) 4 = none ∧
    (convert_to_fourier_series (fun _ => (0 : ℂ)) 5).isSome = true :=
  ⟨(c8_analyzer_parity (fun _ => 0) 4).1 rfl,
   (c8_analyzer_parity (fun _ => 0) 5).2.1 (by decide)⟩

/-- Claim C5 as amended: InvalidParameter is raised exactly when an
absolute move-to does not have exactly 2 parameters or an absolute
cubic-curve-to has a parameter count that is not a multiple of 6 (a count
of 0 is accepted); any unsupported command kind is rejected as
UnrecognizedCommand carrying its description; close is accepted with no
geometry; a move-to with 3 parameters and a cubic-curve-to with 7
parameters are rejected with InvalidParameter. -/
theorem c5_validation_amended :
    (∀ cmd, try_from_command cmd = .error .InvalidParameter ↔
      ((∃ p, cmd = Command.Move .Absolute p ∧ p.length ≠ 2) ∨
       (∃ p, cmd = Command.CubicCurve .Absolute p ∧ p.length % 6 ≠ 0))) ∧
    (∀ cmd, is_supported_kind cmd = false →
      try_from_command cmd = .error (.UnrecognizedCommand (describe cmd))) ∧
    try_from_command Command.Close = .ok [] ∧
    (∀ a b c : ℝ, try_from_command (.Move .Absolute [a, b, c]) =
      .error .InvalidParameter) ∧
    (∀ p : List ℝ, p.length = 7 →
      try_from_command (.CubicCurve .Absolute p) =
        .error .InvalidParameter) := by
  refine ⟨?_, ?_, rfl, ?_, ?_⟩
  · intro cmd
    cases cmd with
    | Move pos p =>
      cases pos with
      | Absolute =>
        by_cases h : p.length = 2 <;> simp [try_from_command, h]
      | Relative => simp [try_from_command]
    | CubicCurve pos p =>
      cases pos with
      | Absolute =>
        by_cases h : p.length % 6 = 0 <;> simp [try_from_command, h]
      | Relative => simp [try_from_command]
    | Line pos p => simp [try_from_command]
    | HorizontalLine pos p => simp [try_from_command]
    | VerticalLine pos p => simp [try_from_command]
    | QuadraticCurve pos p => simp [try_from_command]
    | SmoothQuadraticCurve pos p => simp [try_from_command]
    | SmoothCubicCurve pos p => simp [try_from_command]
    | EllipticalArc pos p => simp [try_from_command]
    | Close => simp [try_from_command]
  · intro cmd h
    cases cmd with
    | Move pos p => simp [is_supported_kind] at h
    | CubicCurve pos p => simp [is_supported_kind] at h
    | Close => simp [is_supported_kind] at h
    | Line pos p => rfl
    | HorizontalLine pos p => rfl
    | VerticalLine pos p => rfl
    | QuadraticCurve pos p => rfl
    | SmoothQuadraticCurve pos p => rfl
    | SmoothCubicCurve pos p => rfl
    | EllipticalArc pos p => rfl
  · intro a b c
    rfl
  · intro p hp
    simp [try_from_command, hp]

theorem c5_witness :
    try_from_command (Command.CubicCurve .Absolute [1, 2, 3, 4, 5, 6, 7]) =
      .error .InvalidParameter :=
  c5_validation_amended.2.2.2.2 [1, 2, 3, 4, 5, 6, 7] rfl

/-- Claim C5, counterexample to the claim as stated: an absolute
cubic-curve-to with 0 parameters has a count that is not a positive
multiple of 6, yet validation accepts it (returning no geometry) instead
of raising InvalidParameter. -/
theorem c5_counterexample :
    ¬ pos_multiple_of_6 (([] : List ℝ)).length ∧
    try_from_command (Command.CubicCurve .Absolute []) = .ok [] ∧
    try_from_command (Command.CubicCurve .Absolute []) ≠
      .error .InvalidParameter := by
  refine ⟨by decide, rfl, ?_⟩
  intro h
  exact Except.noConfusion h

/-- Claim C7: if any command in the sequence fails validation, the whole
translation aborts and no path function is produced. -/
theorem c7_abort_on_invalid (cmds : List Command)
    (h : ∃ c ∈ cmds, ∃ e, try_from_command c = .error e) :
    parse_svg_into_proc cmds = none := by
  suffices hnone : collect_cmds cmds = none by
    unfold parse_svg_into_proc
    rw [hnone]
  induction cmds with
  | nil =>
    rcases h with ⟨c, hc, _⟩
    simp at hc
  | cons c rest ih =>
    rcases h with ⟨c', hc', e, he⟩
    rcases List.mem_cons.mp hc' with rfl | hmem
    · unfold collect_cmds
      rw [he]
    · cases hcase : try_from_command c with
      | error _ =>
        unfold collect_cmds
        rw [hcase]
      | ok data =>
        unfold collect_cmds
        rw [hcase, ih ⟨c', hmem, e, he⟩]
        rfl

theorem c7_witness :
    parse_svg_into_proc [Command.Move .Absolute [1, 2, 3]] = none :=
  c7_abort_on_invalid [Command.Move .Absolute [1, 2, 3]]
    ⟨Command.Move .Absolute [1, 2, 3], List.mem_cons_self _ _,
      TryFromCommandError.InvalidParameter, rfl⟩

lemma complex_mk_zero (x : ℝ) : (⟨0, x⟩ : ℂ) = (x : ℂ) * Complex.I := by
  apply Complex.ext <;> simp

/-- Claim C2: for a periodic complex-valued f and odd n at least 3, the
analyzer returns exactly n coefficients, the coefficient at storage
index i corresponds to k = i - (n-1)/2 in increasing order, and equals
the adaptive-quadrature estimate of the integral over [0, 1] of
f(t) * exp(-2 pi i k t) dt. -/
theorem c2_analyzer_coefficients (f : ℝ → ℂ) (n : ℕ)
    (hodd : n % 2 = 1) (hn : 3 ≤ n) :
    ∃ l, convert_to_fourier_series f n = some l ∧ l.length = n ∧
      ∀ i, i < n → l.getD i 0 =
        integrate_v2 0 1 (fun t =>
          f t * Complex.exp
            (-(2 * Real.pi * Complex.I *
              ((((i : ℤ) - (((n - 1) / 2 : ℕ) : ℤ)) : ℤ) : ℂ) *
              (t : ℂ)))) := by
  have hne : ¬ n % 2 = 0 := by omega
  refine ⟨(List.range n).map (fun (j : ℕ) =>
      integrate_v2 0 1 (fun t =>
        f t * Complex.exp
          ⟨0, -t * ((((j : ℤ) - (((n - 1) / 2 : ℕ) : ℤ) : ℤ)) : ℝ) * 2 *
            Real.pi⟩)), ?_, ?_, ?_⟩
  · unfold convert_to_fourier_series
    rw [if_neg hne]
  · simp
  · intro i hi
    rw [List.getD_eq_getElem _ _ (by simpa using hi)]
    simp only [List.getElem_map, List.getElem_range]
    congr 1
    funext t
    congr 1
    rw [complex_mk_zero]
    push_cast
    ring_nf

theorem c2_witness :
    ∃ l, convert_to_fourier_series (fun _ => (0 : ℂ)) 3 = some l ∧
      l.length = 3 ∧
      ∀ i, i < 3 → l.getD i 0 =
        integrate_v2 0 1 (fun t =>
          (fun _ => (0 : ℂ)) t * Complex.exp
            (-(2 * Real.pi * Complex.I *
              ((((i : ℤ) - (((3 - 1) / 2 : ℕ) : ℤ)) : ℤ) : ℂ) *
              (t : ℂ)))) :=
  c2_analyzer_coefficients (fun _ => 0) 3 rfl (by decide)

lemma enumFrom_map_sum (g : ℕ → ℂ → ℂ) :
    ∀ (l : List ℂ) (k : ℕ),
      ((List.enumFrom k l).map (fun p => g p.1 p.2)).sum =
        ∑ i ∈ Finset.range l.length, g (k + i) (l.getD i 0) := by
  intro l
  induction l with
  | nil => intro k; simp
  | cons a tl ih =>
    intro k
    have hcons : List.enumFrom k (a :: tl) =
        (k, a) :: List.enumFrom (k + 1) tl := rfl
    rw [hcons, List.map_cons, List.sum_cons, ih, List.length_cons,
      Finset.sum_range_succ']
    simp only [List.getD_cons_succ, List.getD_cons_zero, Nat.add_zero]
    rw [add_comm]
    congr 1
    apply Finset.sum_congr rfl
    intro i _
    congr 1
    omega

lemma enum_map_sum (g : ℕ → ℂ → ℂ) (l : List ℂ) :
    ((l.enum).map (fun p => g p.1 p.2)).sum =
      ∑ i ∈ Finset.range l.length, g i (l.getD i 0) := by
  rw [show l.enum = List.enumFrom 0 l from rfl, enumFrom_map_sum]
  simp

/-- Claim C4: for an odd-length coefficient list, the synthesizer
evaluation returns the sum over k from -(n-1)/2 to (n-1)/2 of
c_k * exp(2 pi i k t), where c_k is the stored coefficient at index
k + (n-1)/2. -/
theorem c4_synthesizer_sum (l : List ℂ) (t : ℝ)
    (hodd : l.length % 2 = 1) :
    fourier_series_as_fn l t =
      ∑ k ∈ Finset.Icc (-(((l.length - 1) / 2 : ℕ) : ℤ))
          (((l.length - 1) / 2 : ℕ) : ℤ),
        l.getD (k + (((l.length - 1) / 2 : ℕ) : ℤ)).toNat 0 *
          Complex.exp (2 * Real.pi * Complex.I * (k : ℂ) * (t : ℂ)) := by
  have h1 : fourier_series_as_fn l t =
      ∑ i ∈ Finset.range l.length,
        l.getD i 0 * Complex.exp
          ⟨0, t * ((((i : ℤ) - (((l.length - 1) / 2 : ℕ) : ℤ) : ℤ)) : ℝ) *
            2 * Real.pi⟩ := by
    unfold fourier_series_as_fn
    exact enum_map_sum (fun i c => c * Complex.exp
      ⟨0, t * ((((i : ℤ) - (((l.length - 1) / 2 : ℕ) : ℤ) : ℤ)) : ℝ) *
        2 * Real.pi⟩) l
  rw [h1]
  have hset : Finset.Icc (-(((l.length - 1) / 2 : ℕ) : ℤ))
      (((l.length - 1) / 2 : ℕ) : ℤ) =
      (Finset.range l.length).map
        ⟨fun (i : ℕ) => (i : ℤ) - (((l.length - 1) / 2 : ℕ) : ℤ),
          by intro a b hab; simp only at hab; omega⟩ := by
    ext k
    simp only [Finset.mem_Icc, Finset.mem_map, Finset.mem_range,
      Function.Embedding.coeFn_mk]
    constructor
    · intro hk
      exact ⟨(k + (((l.length - 1) / 2 : ℕ) : ℤ)).toNat, by omega, by omega⟩
    · rintro ⟨i, hi, rfl⟩
      omega
  rw [hset, Finset.sum_map]
  apply Finset.sum_congr rfl
  intro i hi
  simp only [Function.Embedding.coeFn_mk]
  have hidx : (((i : ℤ) - (((l.length - 1) / 2 : ℕ) : ℤ)) +
      (((l.length - 1) / 2 : ℕ) : ℤ)).toNat = i := by omega
  rw [hidx]
  congr 1
  rw [complex_mk_zero]
  push_cast
  ring_nf

lemma cubic_bezier_zero (p0 p1 p2 p3 : ℂ) : cubic_bezier p0 p1 p2 p3 0 = p0 := by
  simp [cubic_bezier]

lemma walk_get (prog : ℝ) :
    ∀ (cmds : List CmdData) (c : ℂ) (k idx : ℕ), k ≤ idx →
      path_fn_walk idx prog cmds c k =
        match (path_segments cmds c).get? (idx - k) with
        | some q => cubic_bezier q.1 q.2.1 q.2.2.1 q.2.2.2 prog
        | none => final_cursor cmds c := by
  intro cmds
  induction cmds with
  | nil =>
    intro c k idx hk
    rfl
  | cons cmd rest ih =>
    intro c k idx hk
    cases cmd with
    | Move p =>
      exact ih p k idx hk
    | CubicCurve p1 p2 p3 =>
      by_cases hidx : k + 1 > idx
      · have hk0 : idx - k = 0 := by omega
        simp only [path_fn_walk, if_pos hidx, path_segments, hk0,
          List.get?]
      · have hk2 : k + 1 ≤ idx := by omega
        have hsub : idx - k = (idx - (k + 1)) + 1 := by omega
        simp only [path_fn_walk, if_neg hidx, path_segments, final_cursor,
          hsub, List.get?]
        exact ih p3 (k + 1) idx hk2

lemma walk_overflow (prog : ℝ) :
    ∀ (cmds : List CmdData) (c : ℂ) (k idx : ℕ),
      segments_count cmds + k ≤ idx →
      path_fn_walk idx prog cmds c k = final_cursor cmds c := by
  intro cmds
  induction cmds with
  | nil =>
    intro c k idx h
    rfl
  | cons cmd rest ih =>
    intro c k idx h
    cases cmd with
    | Move p =>
      refine ih p k idx ?_
      simpa [segments_count, List.countP_cons] using h
    | CubicCurve p1 p2 p3 =>
      have hcount : segments_count rest + (k + 1) ≤ idx := by
        have hc : segments_count (CmdData.CubicCurve p1 p2 p3 :: rest) =
            segments_count rest + 1 := by
          simp [segments_count, List.countP_cons]
        omega
      have hle : ¬ (k + 1 > idx) := by omega
      simp only [path_fn_walk, if_neg hle, final_cursor]
      exact ih p3 (k + 1) idx hcount

lemma walk_zero (cmds : List CmdData) :
    ∀ c : ℂ, path_fn_walk 0 0 cmds c 0 = first_pos cmds c := by
  induction cmds with
  | nil =>
    intro c
    rfl
  | cons cmd rest ih =>
    intro c
    cases cmd with
    | Move p =>
      exact ih p
    | CubicCurve p1 p2 p3 =>
      simp only [path_fn_walk, first_pos]
      rw [if_pos (by omega)]
      exact cubic_bezier_zero c p1 p2 p3

lemma final_cursor_eq_last_move :
    ∀ (cmds : List CmdData), segments_count cmds = 0 →
      ∀ c : ℂ, final_cursor cmds c = last_move_pos cmds c := by
  intro cmds
  induction cmds with
  | nil =>
    intro _ c
    rfl
  | cons cmd rest ih =>
    intro h c
    cases cmd with
    | Move p =>
      have hr : segments_count rest = 0 := by
        simpa [segments_count, List.countP_cons] using h
      exact ih hr p
    | CubicCurve p1 p2 p3 =>
      exfalso
      have hc : segments_count (CmdData.CubicCurve p1 p2 p3 :: rest) =
          segments_count rest + 1 := by
        simp [segments_count, List.countP_cons]
      omega

/-- Claim C3: the built path function computes idx_prog = t * segment
count, idx = floor, local_t = idx_prog - idx, and walks the commands from
the origin cursor: Move overwrites the cursor without consuming a
segment, the (idx+1)-th cubic command returns the Bezier value at local_t
with the cursor as p0 (stated as equality with the segment-list spec
rendering); at t = 0 it yields the position of the most recent Move at or
before the first curve, and at or beyond the last segment it yields the
final cursor position. -/
theorem c3_path_function (cmds : List CmdData) (t : ℝ) (ht : 0 ≤ t) :
    path_fn cmds t = path_fn_spec cmds t ∧
    path_fn cmds 0 = first_pos cmds 0 ∧
    (1 ≤ t → path_fn cmds t = final_cursor cmds 0) := by
  refine ⟨?_, ?_, ?_⟩
  · show path_fn_walk (⌊t * (segments_count cmds : ℝ)⌋.toNat)
        (t * (segments_count cmds : ℝ) -
          ((⌊t * (segments_count cmds : ℝ)⌋.toNat : ℕ) : ℝ)) cmds 0 0 =
      path_fn_spec cmds t
    have h0 : (0 : ℝ) ≤ t * (segments_count cmds : ℝ) :=
      mul_nonneg ht (Nat.cast_nonneg _)
    have hfl : (0 : ℤ) ≤ ⌊t * (segments_count cmds : ℝ)⌋ :=
      Int.floor_nonneg.mpr h0
    have hcast : ((⌊t * (segments_count cmds : ℝ)⌋.toNat : ℕ) : ℝ) =
        ((⌊t * (segments_count cmds : ℝ)⌋ : ℤ) : ℝ) := by
      exact_mod_cast congrArg (fun z : ℤ => (z : ℝ)) (Int.toNat_of_nonneg hfl)
    rw [walk_get _ cmds 0 0 _ (Nat.zero_le _), Nat.sub_zero, hcast]
    rfl
  · show path_fn_walk (⌊(0 : ℝ) * (segments_count cmds : ℝ)⌋.toNat)
        ((0 : ℝ) * (segments_count cmds : ℝ) -
          ((⌊(0 : ℝ) * (segments_count cmds : ℝ)⌋.toNat : ℕ) : ℝ)) cmds 0 0 =
      first_pos cmds 0
    simp only [zero_mul, Int.floor_zero, Int.toNat_zero, Nat.cast_zero,
      sub_zero]
    exact walk_zero cmds 0
  · intro ht1
    show path_fn_walk (⌊t * (segments_count cmds : ℝ)⌋.toNat)
        (t * (segments_count cmds : ℝ) -
          ((⌊t * (segments_count cmds : ℝ)⌋.toNat : ℕ) : ℝ)) cmds 0 0 =
      final_cursor cmds 0
    have hge : ((segments_count cmds : ℤ)) ≤
        ⌊t * (segments_count cmds : ℝ)⌋ := by
      refine Int.le_floor.mpr ?_
      push_cast
      nlinarith [Nat.cast_nonneg (α := ℝ) (segments_count cmds)]
    refine walk_overflow _ cmds 0 0 _ ?_
    omega

theorem c3_witness :
    path_fn [] 0 = path_fn_spec [] 0 ∧
    path_fn [] 0 = first_pos [] 0 ∧
    ((1 : ℝ) ≤ 0 → path_fn [] 0 = final_cursor [] 0) :=
  c3_path_function [] 0 le_rfl

/-- Claim C10: with no cubic segments the built function is total and
constant: for every t it returns the position set by the last Move
command, or the origin when there is no Move. -/
theorem c10_no_segments_constant (cmds : List CmdData)
    (h : segments_count cmds = 0) (t : ℝ) :
    path_fn cmds t = last_move_pos cmds 0 := by
  show path_fn_walk (⌊t * (segments_count cmds : ℝ)⌋.toNat)
      (t * (segments_count cmds : ℝ) -
        ((⌊t * (segments_count cmds : ℝ)⌋.toNat : ℕ) : ℝ)) cmds 0 0 =
    last_move_pos cmds 0
  rw [walk_overflow _ cmds 0 0 _ (by omega)]
  exact final_cursor_eq_last_move cmds h 0

theorem c10_witness :
    path_fn [CmdData.Move ⟨1, 2⟩] (-3) =
      last_move_pos [CmdData.Move ⟨1, 2⟩] 0 :=
  c10_no_segments_constant [CmdData.Move ⟨1, 2⟩] rfl (-3)

theorem c4_witness :
    fourier_series_as_fn [(0 : ℂ)] 0 =
      ∑ k ∈ Finset.Icc (-((([(0 : ℂ)].length - 1) / 2 : ℕ) : ℤ))
          ((([(0 : ℂ)].length - 1) / 2 : ℕ) : ℤ),
        [(0 : ℂ)].getD (k + ((([(0 : ℂ)].length - 1) / 2 : ℕ) : ℤ)).toNat 0 *
          Complex.exp (2 * Real.pi * Complex.I * (k : ℂ) * ((0 : ℝ) : ℂ)) :=
  c4_synthesizer_sum [0] 0 rfl

end FourierAnim
